import Mathlib

/-!
Shallow embedding of the lggs styling/formatting engine
(`src/libs/formatkits.ts` plus the `rgb` helper of `src/libs/utils.ts`).

JS strings are modelled as `List Char`; the engine's regex patterns are
embedded as explicit leftmost-match scanners with the exact semantics of
the concrete patterns appearing in the source (non-greedy `.*?`, greedy
character classes, optional `(-b)?`).  JS numbers are modelled as `ℚ`
with `NaN` as `Option.none` where the code can produce it.
-/

namespace Lggs

abbrev Str := List Char

def isWordChar (c : Char) : Bool := c.isAlphanum || c == '_'

/-- The JS regex `.` character class (anything but line terminators). -/
def isJsDot (c : Char) : Bool :=
  !(c == '\n' || c == '\r' || c == Char.ofNat 0x2028 || c == Char.ofNat 0x2029)

def isAsciiLetterChar (c : Char) : Bool :=
  ('a' ≤ c && c ≤ 'z') || ('A' ≤ c && c ≤ 'Z')

def isSpaceChar (c : Char) : Bool :=
  c == ' ' || c == '\t' || c == '\n' || c == '\r'

/-- Decimal digit string of a positive natural number (most significant
first), with structural fuel so the recursion is kernel-reducible; any
`fuel > n` is enough, since `n / 10 < n` for positive `n`. -/
def natStrGo : Nat → Nat → Str
  | 0, _ => []
  | fuel + 1, n =>
    if n < 10 then [Char.ofNat (48 + n)]
    else natStrGo fuel (n / 10) ++ [Char.ofNat (48 + n % 10)]

/-- JS `String(n)` for a natural number. -/
def natStr (n : Nat) : Str := if n = 0 then ['0'] else natStrGo (n + 1) n

/-- JS `String(i)` for an integer. -/
def intStr (i : Int) : Str := if i < 0 then '-' :: natStr i.natAbs else natStr i.natAbs

def trimStr (s : Str) : Str :=
  ((s.dropWhile isSpaceChar).reverse.dropWhile isSpaceChar).reverse

/-- `rgb_converter` of `src/libs/utils.ts`: clamps each channel to `[0,255]`
and builds the 24-bit SGR escape `ESC[38;2;R;G;Bm` / `ESC[48;2;R;G;Bm`. -/
def rgb_converter (background : Bool) (r g b : Int) : Str :=
  let clamp := fun (c : Int) =>
    (if c ≤ 0 then 0 else if 255 ≤ c then 255 else c).toNat
  '\x1b' :: '[' :: (if background then "48" else "38").toList ++ ";2;".toList ++
    natStr (clamp r) ++ [';'] ++ natStr (clamp g) ++ [';'] ++ natStr (clamp b) ++ ['m']

/-- `rgb` of `src/libs/utils.ts` (the `bg` argument defaults to `false` at call sites). -/
def rgb (r g b : Int) (bg : Bool) : Str := rgb_converter bg r g b

/-- Modelled from the spec: `LoggingsAnsiSpecials.reset` of the `pallet` module,
which is imported by `formatkits.ts` but absent from the sources (§4.1: reset is
`ESC[0m`). -/
def ansiReset : Str := '\x1b' :: '[' :: '0' :: ['m']

/-- Modelled from the spec: `LoggingsAnsiSpecials.bold` (§6: bold is `ESC[1m`). -/
def ansiBold : Str := '\x1b' :: '[' :: '1' :: ['m']

/-- Modelled from the spec: the built-in colour table of the missing `pallet`
module; RGB triples as pinned by the repository's tests (red `255,0,0`, blue
`0,0,255`, …).  Brightness-suffix names are not modelled; per §4.1, unknown
names fall back to the configured fallback colour. -/
def palletTable : List (Str × (Nat × Nat × Nat)) :=
  [("red".toList, (255, 0, 0)),
   ("green".toList, (0, 255, 0)),
   ("blue".toList, (0, 0, 255)),
   ("yellow".toList, (255, 255, 0)),
   ("magenta".toList, (255, 0, 255)),
   ("cyan".toList, (0, 255, 255)),
   ("white".toList, (255, 255, 255)),
   ("black".toList, (0, 0, 0)),
   ("gray".toList, (128, 128, 128)),
   ("purple".toList, (128, 0, 128)),
   ("orange".toList, (255, 165, 0))]

/-- Modelled from the spec: SGR codes of the six inline styles (§6; the tests
pin bold `ESC[1m` and strikethrough `ESC[9m`; italic, underline, blink and
reverse use their standard single-parameter SGR codes). -/
def styleTable : List (Str × Nat) :=
  [("bold".toList, 1), ("strikethrough".toList, 9), ("italic".toList, 3),
   ("underline".toList, 4), ("blink".toList, 5), ("reverse".toList, 7)]

def sgr (n : Nat) : Str := '\x1b' :: '[' :: natStr n ++ ['m']

/-- Modelled from the spec: `colorpik` of the missing `pallet` module — wraps
`text` in the escape of the named colour or style plus a trailing reset; an
unknown name degrades to the fallback colour (white), never throws (§4.1). -/
def colorpik (name : Str) (text : Str) : Str :=
  match styleTable.lookup name with
  | some n => sgr n ++ text ++ ansiReset
  | none =>
    match palletTable.lookup name with
    | some (r, g, b) => rgb r g b false ++ text ++ ansiReset
    | none => rgb 255 255 255 false ++ text ++ ansiReset

/-- Modelled from the spec: `toHexadecimal` of the missing `pallet` module —
the colour name as the number `0xRRGGBB`, with the fallback colour for
unknown names. -/
def toHexadecimal (name : Str) : Nat :=
  match palletTable.lookup name with
  | some (r, g, b) => r * 65536 + g * 256 + b
  | none => 16777215

/-- `pat` is a prefix of `s`. -/
def leadsWith : Str → Str → Bool
  | [], _ => true
  | _ :: _, [] => false
  | p :: ps, c :: cs => p == c && leadsWith ps cs

/-- JS `String.prototype.replace` with a plain-string search pattern: replaces
the first occurrence of `pat` only.  (`$`-expansion inside the replacement is
not modelled; no replacement string built by this engine contains a `$`
followed by a special character.) -/
def replaceFirst (pat rep : Str) : Str → Str
  | [] => if leadsWith pat [] then rep else []
  | c :: cs =>
    if leadsWith pat (c :: cs) then rep ++ (c :: cs).drop pat.length
    else c :: replaceFirst pat rep cs

/-- The lazy tail `(.*?)d` of an inline pattern: content up to the *first*
closing delimiter, every content character matching the regex `.` class;
`none` when no closing delimiter is reachable. -/
def findCloseDot (d : Char) : Str → Option (Str × Str)
  | [] => none
  | c :: cs =>
    if c == d then some ([], cs)
    else if isJsDot c then (findCloseDot d cs).map (fun p => (c :: p.1, p.2))
    else none

/-- Leftmost match of an inline pattern `d(.*?)d`: returns
(text before the match, captured content, text after the match). -/
def findInline (d : Char) : Str → Option (Str × Str × Str)
  | [] => none
  | c :: cs =>
    if c == d then
      match findCloseDot d cs with
      | some (inner, post) => some ([], inner, post)
      | none => (findInline d cs).map (fun t => (c :: t.1, t.2))
    else (findInline d cs).map (fun t => (c :: t.1, t.2))

/-- `LoggingsFormatParser(pattern, cb)` instantiated at the six inline-style
patterns `d(.*?)d`: the regex has no `g` flag, so `text.replace` rewrites only
the first match; the callback is `nocolor ? text : colorpik(style, text)`. -/
def LoggingsFormatParserInline (d : Char) (styleName : Str) : Bool → Str → Str :=
  fun nocolor text =>
    match findInline d text with
    | none => text
    | some (pre, inner, post) =>
      pre ++ (if nocolor then inner else colorpik styleName inner) ++ post

/-- One resolved match of the legacy tag pattern `\[([^\[\]]+)\]\.(\w+)(-b)?`. -/
structure LegacyMatch where
  matched : Str
  value : Str
  key : Str
  bold : Bool

/-- Match of the legacy tag pattern anchored at the start of `s`: `[`, a
non-empty greedy run of non-bracket characters, `].`, a non-empty greedy run
of word characters, and an optional literal `-b`. -/
def matchLegacyAt (s : Str) : Option LegacyMatch :=
  match s with
  | '[' :: rest =>
    let nb := fun (c : Char) => !(c == '[' || c == ']')
    let v := rest.takeWhile nb
    if v.isEmpty then none else
    match rest.dropWhile nb with
    | ']' :: '.' :: rest2 =>
      let k := rest2.takeWhile isWordChar
      if k.isEmpty then none else
      match rest2.dropWhile isWordChar with
      | '-' :: 'b' :: _ => some ⟨'[' :: v ++ [']', '.'] ++ k ++ ['-', 'b'], v, k, true⟩
      | _ => some ⟨'[' :: v ++ [']', '.'] ++ k, v, k, false⟩
    | _ => none
  | _ => none

/-- Leftmost match of the legacy tag pattern (`pattern.exec` with
`lastIndex` reset to 0 before every scan). -/
def findLegacy : Str → Option LegacyMatch
  | [] => none
  | c :: cs =>
    match matchLegacyAt (c :: cs) with
    | some m => some m
    | none => findLegacy cs

/-- One record of the legacy kit's `fragments` array. -/
structure Frag where
  key : Str
  count : Nat
  value : Str
  bold : Bool

/-- The placeholder token `<__LOGGINGS_$${count}>`. -/
def legacyToken (n : Nat) : Str := "<__LOGGINGS_$".toList ++ natStr n ++ ['>']

/-- The `while (true) { pattern.exec; replace }` loop of the legacy kit.
Each successful iteration removes one `[` from the working text (the match
contains exactly one and the placeholder none), so a fuel of
`count '[' + 1` can never be exhausted while a match remains. -/
def fragLoop : Nat → Str → List Frag → Nat → (Str × List Frag × Nat)
  | 0, out, frags, ctr => (out, frags, ctr)
  | fuel + 1, out, frags, ctr =>
    match findLegacy out with
    | none => (out, frags, ctr)
    | some m =>
      fragLoop fuel (replaceFirst m.matched (legacyToken ctr) out)
        (frags ++ [⟨m.key, ctr, m.value, m.bold⟩]) (ctr + 1)

/-- The `fragment` pass of the legacy kit: working text after all
replacements, the recorded fragments, and the final counter value. -/
def legacyResolve (input : Str) : Str × List Frag × Nat :=
  fragLoop (input.count '[' + 1) input [] 0

/-- How the unwind step renders one fragment: bold escape (unless colour is
suppressed), then `colorpik` of the key (unless colour is suppressed). -/
def fragRender (nocolor : Bool) (f : Frag) : Str :=
  let fragmented := f.value
  let fragmented := if f.bold then (if nocolor then fragmented else ansiBold ++ fragmented) else fragmented
  if nocolor then fragmented else colorpik f.key fragmented

/-- `LOGGINGS_FORMATKITS[0]`: the legacy nested-bracket resolver
(placeholder substitution, unwound in reverse creation order). -/
def legacyKit : Bool → Str → Str := fun nocolor input =>
  let r := legacyResolve input
  r.2.1.reverse.foldl
    (fun res f => replaceFirst (legacyToken f.count) (fragRender nocolor f) res) r.1

/-- `_colors.split(",")` — JS `split` on a comma, never returning `[]`. -/
def splitCommaAux : Str → Str → List Str
  | [], acc => [acc.reverse]
  | c :: cs, acc => if c == ',' then acc.reverse :: splitCommaAux cs [] else splitCommaAux cs (c :: acc)

def splitComma (s : Str) : List Str := splitCommaAux s []

/-- JS `Math.round` (half toward positive infinity). -/
def jsRound (q : ℚ) : Int := (q + 1 / 2).floor

/-- The `interpolate` closure of `GradientFunction`: linear interpolation of
the `0xRRGGBB` channels of two stops followed by `rgb(r, g, b)()`. -/
def interpolate (colorA colorB : Nat) (factor : ℚ) : Str :=
  let rA := colorA / 65536 % 256
  let gA := colorA / 256 % 256
  let bA := colorA % 256
  let rB := colorB / 65536 % 256
  let gB := colorB / 256 % 256
  let bB := colorB % 256
  let r := jsRound ((rA : ℚ) + ((rB : ℚ) - (rA : ℚ)) * factor)
  let g := jsRound ((gA : ℚ) + ((gB : ℚ) - (gA : ℚ)) * factor)
  let b := jsRound ((bA : ℚ) + ((bB : ℚ) - (bA : ℚ)) * factor)
  rgb r g b false

/-- The colour stops of one gradient invocation: split on commas, a single
stop duplicated, each entry trimmed and resolved through `toHexadecimal`. -/
def gradStops (colorsArg : Str) : List Nat :=
  let parts := splitComma colorsArg
  let parts2 := if parts.length == 1 then [parts.headD [], parts.headD []] else parts
  parts2.map (fun a => toHexadecimal (trimStr a))

/-- Modelled from the spec: the engine's emoji classification
(`\p{Emoji_Presentation}` / `\p{Emoji}️`) depends on the Unicode
property tables of the JS runtime; it is approximated here by the main
emoji code-point blocks, one character per display unit. -/
def isEmojiChar (c : Char) : Bool :=
  (0x1F000 ≤ c.toNat && c.toNat ≤ 0x1FAFF) ||
  (0x2600 ≤ c.toNat && c.toNat ≤ 0x27BF) ||
  c.toNat == 0x2B50 || c.toNat == 0xFE0F

/-- The `chars` array of `GradientFunction`: the text partitioned into
display units, each flagged as emoji or scalar. -/
def partitionUnits (text : Str) : List (Str × Bool) :=
  text.map (fun c => ([c], isEmojiChar c))

/-- The main accumulation loop of `GradientFunction`: emoji units pass
through unstyled without advancing `charIndex`; each scalar unit is
preceded by the interpolated colour escape. -/
def gradLoop (colors : List Nat) (sl : Nat) : List (Str × Bool) → Nat → Str
  | [], _ => []
  | (u, true) :: rest, i => u ++ gradLoop colors sl rest i
  | (u, false) :: rest, i =>
    let idx := i / sl
    let colorA := colors.getD idx 0
    let colorB := colors.getD (if idx + 1 ≤ colors.length - 1 then idx + 1 else colors.length - 1) 0
    let factor : ℚ := ((i : ℚ) - (idx : ℚ) * (sl : ℚ)) / (sl : ℚ)
    interpolate colorA colorB factor ++ u ++ gradLoop colors sl rest (i + 1)

/-- `GradientFunction` of `formatkits.ts`. -/
def GradientFunction (nocolor : Bool) (_whole : Str) (text : Str) (colorsArg : Str) : Str :=
  if nocolor then text else
  let colors := gradStops colorsArg
  let units := partitionUnits text
  let textLength := (units.filter (fun u => !u.2)).length
  let sections := colors.length - 1
  let sectionLength := (textLength + sections - 1) / sections
  gradLoop colors sectionLength units 0 ++ ansiReset

/-- Match of the gradient pattern `\(([^()]+)\)gV\((.*?)\)` anchored at the
start of `s` (`V` is the variant letter `d` or `b`): returns
(whole match, inner text, colour argument, rest). -/
def matchGradAt (variant : Char) (s : Str) : Option (Str × Str × Str × Str) :=
  match s with
  | '(' :: r1 =>
    let np := fun (c : Char) => !(c == '(' || c == ')')
    let inner := r1.takeWhile np
    if inner.isEmpty then none else
    match r1.dropWhile np with
    | ')' :: 'g' :: v :: '(' :: r2 =>
      if v == variant then
        match findCloseDot ')' r2 with
        | some (args, rest) =>
          some ('(' :: inner ++ [')', 'g', v, '('] ++ args ++ [')'], inner, args, rest)
        | none => none
      else none
    | _ => none
  | _ => none

/-- Leftmost match of the gradient pattern: (before, whole, inner, args, after). -/
def findGrad (variant : Char) : Str → Option (Str × Str × Str × Str × Str)
  | [] => none
  | c :: cs =>
    match matchGradAt variant (c :: cs) with
    | some (whole, inner, args, rest) => some ([], whole, inner, args, rest)
    | none => (findGrad variant cs).map (fun t => (c :: t.1, t.2))

/-- `LoggingsFormatParser` instantiated at a gradient pattern: first match
rewritten through `GradientFunction`. -/
def gradKit (variant : Char) : Bool → Str → Str := fun nocolor text =>
  match findGrad variant text with
  | none => text
  | some (pre, whole, inner, args, post) =>
    pre ++ GradientFunction nocolor whole inner args ++ post

/-- The type `LoggingsFormatKitFunction` of `src/types.ts`:
`(nocolor, text) => string`. -/
def LoggingsFormatKitFunction := Bool → Str → Str

/-- `LOGGINGS_FORMATKITS`: legacy brackets, the six inline styles, and the
two gradient variants, in source order. -/
def LOGGINGS_FORMATKITS : List LoggingsFormatKitFunction :=
  [legacyKit,
   LoggingsFormatParserInline '*' "bold".toList,
   LoggingsFormatParserInline '~' "strikethrough".toList,
   LoggingsFormatParserInline '-' "italic".toList,
   LoggingsFormatParserInline '_' "underline".toList,
   LoggingsFormatParserInline '!' "blink".toList,
   LoggingsFormatParserInline '#' "reverse".toList,
   gradKit 'd',
   gradKit 'b']

/-- A loggable JS value: a string or a number.  JS numbers are modelled as
rationals; `NaN` arises only through string-to-number coercion and is
represented by `Option.none` at the coercion points. -/
inductive LVal where
  | str : Str → LVal
  | num : ℚ → LVal

/-- The least scale `k ≤ 20` with `q * 10^k` integral, when one exists. -/
def scaleK (q : ℚ) : Option Nat :=
  (List.range 21).find? (fun k => (q * ((10 ^ k : Nat) : ℚ)).den == 1)

/-- Left-pad a digit string with zeros to width `k`. -/
def padLeftZeros (k : Nat) (s : Str) : Str := List.replicate (k - s.length) '0' ++ s

/-- JS `String(x)` for a number: exact for integers; terminating decimals
printed with their minimal fraction digits (matching JS output for the
plain decimal literals this engine handles); other rationals — which no
JS double produces — fall back to a `num/den` rendering. -/
def numToString (q : ℚ) : Str :=
  if q.den = 1 then intStr q.num
  else
    match scaleK q with
    | some k =>
      let m := (q * ((10 ^ k : Nat) : ℚ)).num
      let sign : Str := if m < 0 then ['-'] else []
      let a := m.natAbs
      sign ++ natStr (a / 10 ^ k) ++ ['.'] ++ padLeftZeros k (natStr (a % 10 ^ k))
    | none => intStr q.num ++ ['/'] ++ natStr q.den

/-- JS `String(arg)`. -/
def jsString : LVal → Str
  | .str s => s
  | .num q => numToString q

def digitsToNat (ds : Str) : Nat := ds.foldl (fun a c => a * 10 + (c.toNat - 48)) 0

/-- JS `Number(string)` (modelled for plain decimal literals: optional sign,
digits, optional fraction; the empty/blank string is 0; anything else NaN). -/
def jsParseNumber (s : Str) : Option ℚ :=
  let t := trimStr s
  if t.isEmpty then some 0 else
  let st : Int × Str :=
    match t with
    | '-' :: r => (-1, r)
    | '+' :: r => (1, r)
    | _ => (1, t)
  let ip := st.2.takeWhile Char.isDigit
  let r1 := st.2.dropWhile Char.isDigit
  match r1 with
  | [] => if ip.isEmpty then none else some ((st.1 : ℚ) * (digitsToNat ip : ℚ))
  | '.' :: r2 =>
    let fp := r2.takeWhile Char.isDigit
    let r3 := r2.dropWhile Char.isDigit
    if r3.isEmpty && !(ip.isEmpty && fp.isEmpty) then
      some ((st.1 : ℚ) * ((digitsToNat ip : ℚ) + (digitsToNat fp : ℚ) / ((10 ^ fp.length : Nat) : ℚ)))
    else none
  | _ => none

/-- JS `Number(arg)` on a loggable value. -/
def jsToNumber : LVal → Option ℚ
  | .num q => some q
  | .str s => jsParseNumber s

/-- JS `String(parseInt(s))` (modelled for decimal literals). -/
def jsParseIntStr (s : Str) : Str :=
  let t := s.dropWhile isSpaceChar
  let st : Int × Str :=
    match t with
    | '-' :: r => (-1, r)
    | '+' :: r => (1, r)
    | _ => (1, t)
  let ds := st.2.takeWhile Char.isDigit
  if ds.isEmpty then "NaN".toList else intStr (st.1 * (digitsToNat ds : Int))

/-- JS `String(parseFloat(s))` (modelled for decimal literals). -/
def jsParseFloatStr (s : Str) : Str :=
  let t := s.dropWhile isSpaceChar
  let st : Int × Str :=
    match t with
    | '-' :: r => (-1, r)
    | '+' :: r => (1, r)
    | _ => (1, t)
  let ip := st.2.takeWhile Char.isDigit
  let r1 := st.2.dropWhile Char.isDigit
  let fp :=
    match r1 with
    | '.' :: r2 => r2.takeWhile Char.isDigit
    | _ => []
  if ip.isEmpty && fp.isEmpty then "NaN".toList
  else numToString ((st.1 : ℚ) * ((digitsToNat ip : ℚ) + (digitsToNat fp : ℚ) / ((10 ^ fp.length : Nat) : ℚ)))

def jsonEscape (s : Str) : Str :=
  s.foldr (fun c acc => if c == '"' || c == '\\' then '\\' :: c :: acc else c :: acc) []

/-- `JSON.stringify` on a loggable value (strings quoted and escaped,
numbers rendered); the value domain here is acyclic, so the `catch`
branch producing `[Circular]` is unreachable. -/
def jsonStringify : LVal → Str
  | .str s => '"' :: jsonEscape s ++ ['"']
  | .num q => numToString q

/-- Modelled from the spec: `_inspect` (safe structural inspection, §4.2) is
implemented in `src/libs/inspect.ts` through the runtime's `util.inspect`,
which is external; on the string/number value domain it quotes strings and
renders numbers. -/
def inspectVal (_nocolor : Bool) : LVal → Str
  | .str s => '\'' :: s ++ ['\'']
  | .num q => numToString q

/-- The recognized directive characters of the `switch` in `sprintf`
(`%` is handled before the argument check). -/
def isRecognizedDirective (c : Char) : Bool :=
  c == 's' || c == 'd' || c == 'i' || c == 'f' || c == 'j' || c == 'o' || c == 'O'

/-- The substituted text of one recognized directive. -/
def directiveText (nocolor : Bool) (c : Char) (a : LVal) : Str :=
  if c == 's' then jsString a
  else if c == 'd' then
    match jsToNumber a with
    | some q => intStr q.floor
    | none => "NaN".toList
  else if c == 'i' then jsParseIntStr (jsString a)
  else if c == 'f' then jsParseFloatStr (jsString a)
  else if c == 'j' then jsonStringify a
  else if c == 'o' || c == 'O' then inspectVal nocolor a
  else ['%', c]

/-- The scan of `format.replace(/%([a-zA-Z%])/g, ...)`: `%%` is a literal
percent; a directive with no remaining argument, or with an unrecognized
character, stays verbatim and consumes nothing; a recognized directive
consumes the next argument.  Returns the rendered text and the final value
of the `consumed` counter. -/
def sprintfAux (nocolor : Bool) : Str → List LVal → (Str × Nat)
  | [], _ => ([], 0)
  | [c1], _ => ([c1], 0)
  | c1 :: c :: rest, args =>
    if c1 == '%' then
      if c == '%' then
        let p := sprintfAux nocolor rest args
        ('%' :: p.1, p.2)
      else if isAsciiLetterChar c then
        match args with
        | [] =>
          let p := sprintfAux nocolor rest []
          ('%' :: c :: p.1, p.2)
        | a :: args2 =>
          if isRecognizedDirective c then
            let p := sprintfAux nocolor rest args2
            (directiveText nocolor c a ++ p.1, p.2 + 1)
          else
            let p := sprintfAux nocolor rest (a :: args2)
            ('%' :: c :: p.1, p.2)
      else
        let p := sprintfAux nocolor (c :: rest) args
        ('%' :: p.1, p.2)
    else
      let p := sprintfAux nocolor (c :: rest) args
      (c1 :: p.1, p.2)

/-- The internal `sprintf(format, args, nocolor)` overload of
`formatkits.ts`: rendered text plus consumed-argument count. -/
def sprintf (format : Str) (args : List LVal) (nocolor : Bool) : Str × Nat :=
  sprintfAux nocolor format args

/-- One round of the controller's do/while body: every tool applied in
order to the evolving text, tracking whether any application changed it. -/
def applyTools (tools : List LoggingsFormatKitFunction) (nocolor : Bool) (s : Str) : Str × Bool :=
  tools.foldl
    (fun acc f =>
      let nextupt := f nocolor acc.1
      if nextupt == acc.1 then acc else (nextupt, true))
    (s, false)

/-- The controller's bounded fixed-point loop: up to `fuel` rounds
(`fuel = 10` at the call site), stopping early when a full round changes
nothing, and returning the text of the last completed round at the cap. -/
def kitLoop (tools : List LoggingsFormatKitFunction) (nocolor : Bool) : Nat → Str → Str
  | 0, s => s
  | fuel + 1, s =>
    let p := applyTools tools nocolor s
    if p.2 then kitLoop tools nocolor fuel p.1 else p.1

/-- JS `output.join(" ")`. -/
def joinSpace : List Str → Str
  | [] => []
  | [x] => x
  | x :: y :: rest => x ++ ' ' :: joinSpace (y :: rest)

/-- `LoggingsFormatKitController`: sprintf step on a leading format string
when further inputs exist, pass-through/inspection of the remaining inputs,
the bounded per-segment kit loop, and a single-space join. -/
def LoggingsFormatKitController (texts : List LVal)
    (extraformats : List LoggingsFormatKitFunction) (nocolor : Bool) : Str :=
  let tools := LOGGINGS_FORMATKITS ++ extraformats
  let step1 : List Str × List LVal :=
    match texts with
    | LVal.str f :: rest =>
      if rest.isEmpty then ([], texts)
      else
        let p := sprintf f rest nocolor
        ([p.1], rest.drop p.2)
    | _ => ([], texts)
  let output := step1.1 ++ step1.2.map (fun v =>
    match v with
    | LVal.str s => s
    | v2 => inspectVal nocolor v2)
  joinSpace (output.map (fun cur => kitLoop tools nocolor 10 cur))

/-! ## Helper lemmas -/

theorem digitsToNat_append (xs : Str) (d : Char) :
    digitsToNat (xs ++ [d]) = digitsToNat xs * 10 + (d.toNat - 48) := by
  simp [digitsToNat, List.foldl_append]

theorem toNat_ofNat_digit (k : Nat) (h : k < 10) : (Char.ofNat (48 + k)).toNat = 48 + k := by
  interval_cases k <;> decide

theorem digitsToNat_natStrGo : ∀ fuel n, n < fuel → digitsToNat (natStrGo fuel n) = n := by
  intro fuel
  induction fuel with
  | zero => intro n h; omega
  | succ m ih =>
    intro n h
    rw [natStrGo]
    by_cases h10 : n < 10
    · rw [if_pos h10]
      simp [digitsToNat, toNat_ofNat_digit n h10]
    · have hdiv : n / 10 < n := Nat.div_lt_self (by omega) (by omega)
      rw [if_neg h10, digitsToNat_append, ih (n / 10) (by omega),
        toNat_ofNat_digit (n % 10) (Nat.mod_lt n (by omega))]
      have h2 := Nat.div_add_mod n 10
      omega

theorem natStr_injective : Function.Injective natStr := by
  intro a b hab
  unfold natStr at hab
  by_cases ha : a = 0 <;> by_cases hb : b = 0
  · omega
  · rw [if_pos ha, if_neg hb] at hab
    have := digitsToNat_natStrGo (b + 1) b (by omega)
    rw [← hab] at this
    simp [digitsToNat] at this
    omega
  · rw [if_neg ha, if_pos hb] at hab
    have := digitsToNat_natStrGo (a + 1) a (by omega)
    rw [hab] at this
    simp [digitsToNat] at this
    omega
  · rw [if_neg ha, if_neg hb] at hab
    have h1 := digitsToNat_natStrGo (a + 1) a (by omega)
    have h2 := digitsToNat_natStrGo (b + 1) b (by omega)
    rw [hab, h2] at h1
    omega

theorem legacyToken_injective : Function.Injective legacyToken := by
  intro a b hab
  unfold legacyToken at hab
  have h1 := List.append_cancel_right hab
  have h2 := List.append_cancel_left h1
  exact natStr_injective h2

theorem fragLoop_counts (fuel : Nat) :
    ∀ out frags ctr, ∃ k,
      (fragLoop fuel out frags ctr).2.1.map Frag.count =
        frags.map Frag.count ++ List.range' ctr k := by
  induction fuel with
  | zero => intro out frags ctr; exact ⟨0, by simp [fragLoop]⟩
  | succ n ih =>
    intro out frags ctr
    rw [fragLoop]
    cases h : findLegacy out with
    | none => exact ⟨0, by simp⟩
    | some m =>
      obtain ⟨k, hk⟩ := ih (replaceFirst m.matched (legacyToken ctr) out)
        (frags ++ [⟨m.key, ctr, m.value, m.bold⟩]) (ctr + 1)
      refine ⟨k + 1, ?_⟩
      rw [hk]
      simp [List.range']

theorem kitLoop_fixed (tools : List LoggingsFormatKitFunction) (nc : Bool) (fuel : Nat) (s : Str)
    (h : applyTools tools nc s = (s, false)) : kitLoop tools nc fuel s = s := by
  cases fuel with
  | zero => rfl
  | succ n => rw [kitLoop, h]; simp

/-- The controller on a single string input is exactly the 10-round kit
loop on that string. -/
theorem controller_single_str (s : Str) (extras : List LoggingsFormatKitFunction) (nc : Bool) :
    LoggingsFormatKitController [LVal.str s] extras nc =
      kitLoop (LOGGINGS_FORMATKITS ++ extras) nc 10 s := rfl

theorem kitLoop_iterate (tools : List LoggingsFormatKitFunction) (nc : Bool) :
    ∀ fuel s, ∃ n, n ≤ fuel ∧
      kitLoop tools nc fuel s = (fun t => (applyTools tools nc t).1)^[n] s := by
  intro fuel
  induction fuel with
  | zero => intro s; exact ⟨0, Nat.le_refl 0, rfl⟩
  | succ m ih =>
    intro s
    rw [kitLoop]
    by_cases hch : (applyTools tools nc s).2
    · obtain ⟨n, hn, he⟩ := ih (applyTools tools nc s).1
      refine ⟨n + 1, by omega, ?_⟩
      rw [Function.iterate_succ_apply, if_pos hch, he]
    · refine ⟨1, by omega, ?_⟩
      rw [Function.iterate_one, if_neg hch]

/-! ## Claim theorems -/

/-- C7 (amended): the placeholder tokens generated during one pass of the
legacy bracket resolver are pairwise distinct — their ids come from a
monotonically increasing counter, so the recorded counts are exactly an
initial range of naturals and `legacyToken` is injective on them.  (The
original claim's further assertion that no token occurs in the literal input
text is refuted by `legacy_token_collision`.) -/
theorem legacy_tokens_distinct (input : Str) :
    ((legacyResolve input).2.1.map (fun f => legacyToken f.count)).Pairwise (· ≠ ·) := by
  obtain ⟨k, hk⟩ := fragLoop_counts (input.count '[' + 1) input [] 0
  have h1 : (legacyResolve input).2.1.map Frag.count = List.range' 0 k := by
    simpa [legacyResolve] using hk
  have h2 : ((legacyResolve input).2.1.map (fun f => legacyToken f.count)) =
      ((legacyResolve input).2.1.map Frag.count).map legacyToken :=
    (List.map_map legacyToken Frag.count (legacyResolve input).2.1).symm
  rw [h2, h1]
  have h3 : (List.range' 0 k).Nodup := List.nodup_range' 0 k
  exact (h3.map legacyToken_injective : (List.map legacyToken (List.range' 0 k)).Nodup)

/-- C7 (counterexample to the original claim): an input that literally
contains the first placeholder token.  The resolver generates exactly the
token `<__LOGGINGS_$0>` (count list `[0]`), that token is a prefix — hence a
substring — of the literal input, and the unwind substitution then replaces
the caller-supplied occurrence, moving the rendered fragment to the front
instead of the tag's position. -/
theorem legacy_token_collision :
    (legacyResolve "<__LOGGINGS_$0> [A].red".toList).2.1.map Frag.count = [0] ∧
    "<__LOGGINGS_$0> [A].red".toList = legacyToken 0 ++ " [A].red".toList ∧
    legacyKit true "<__LOGGINGS_$0> [A].red".toList = "A <__LOGGINGS_$0>".toList := by
  refine ⟨by decide, by decide, by decide⟩

/-- C9: the Format Controller on an empty input sequence returns the empty
string, for every extra-kit list and suppress-colour flag: the sprintf step
is skipped, there are no segments, and the join of no segments is empty. -/
theorem controller_empty (extraformats : List LoggingsFormatKitFunction) (nocolor : Bool) :
    LoggingsFormatKitController [] extraformats nocolor = [] := rfl

/-- C1: the controller's per-segment loop runs at most 10 rounds: for every
extra-kit list, flag and segment, its result is the round function (one
application of every kit in order) iterated some `n ≤ 10` times — when the
cap is reached this is the text of the last completed round, not an error. -/
theorem controller_iteration_cap (extraformats : List LoggingsFormatKitFunction)
    (nocolor : Bool) (s : Str) :
    ∃ n, n ≤ 10 ∧
      kitLoop (LOGGINGS_FORMATKITS ++ extraformats) nocolor 10 s =
        (fun t => (applyTools (LOGGINGS_FORMATKITS ++ extraformats) nocolor t).1)^[n] s :=
  kitLoop_iterate (LOGGINGS_FORMATKITS ++ extraformats) nocolor 10 s

/-- C8 (amended): re-running the controller on its own suppressed-colour
output is a no-op when that output is a single segment on which one full
round of the built-in kits produces no change (in particular, whenever the
per-segment loop converged).  Joining several segments with spaces, or
hitting the 10-round cap, can leave active tag syntax in the output, which a
second run then consumes (`controller_not_idempotent`). -/
theorem controller_idempotent_fixed (s : Str)
    (h : applyTools LOGGINGS_FORMATKITS true s = (s, false)) :
    LoggingsFormatKitController [LVal.str s] [] true = s := by
  have h2 : applyTools (LOGGINGS_FORMATKITS ++ ([] : List LoggingsFormatKitFunction)) true s = (s, false) := by
    rw [List.append_nil]; exact h
  rw [controller_single_str, kitLoop_fixed _ _ _ _ h2]

theorem controller_idempotent_fixed_witness :
    LoggingsFormatKitController [LVal.str "Hello".toList] [] true = "Hello".toList :=
  controller_idempotent_fixed "Hello".toList (by decide)

/-- C8 (counterexample to the original claim): with the two string inputs
`"a*b"` and `"c*d"`, the suppressed-colour render is `"a*b c*d"` (each
segment separately is a fixed point), but re-rendering that single string
lets the bold pass match `*b c*` across the join, yielding `"ab cd"`. -/
theorem controller_not_idempotent :
    LoggingsFormatKitController
        [LVal.str (LoggingsFormatKitController
          [LVal.str "a*b".toList, LVal.str "c*d".toList] [] true)] [] true ≠
      LoggingsFormatKitController [LVal.str "a*b".toList, LVal.str "c*d".toList] [] true := by
  decide

theorem sprintfAux_pp (nc : Bool) (c1 c : Char) (rest : Str) (args : List LVal)
    (h1 : (c1 == '%') = true) (h2 : (c == '%') = true) :
    sprintfAux nc (c1 :: c :: rest) args =
      ('%' :: (sprintfAux nc rest args).1, (sprintfAux nc rest args).2) := by
  cases args with
  | nil => rw [sprintfAux.eq_3, if_pos h1, if_pos h2]
  | cons a args2 => rw [sprintfAux.eq_4, if_pos h1, if_pos h2]

theorem sprintfAux_verbatim_branch (nc : Bool) (c1 c : Char) (rest : Str) (args : List LVal)
    (h1 : (c1 == '%') = true) (h2 : ¬ ((c == '%') = true)) (h3 : isAsciiLetterChar c = true)
    (h : args = [] ∨ isRecognizedDirective c = false) :
    sprintfAux nc (c1 :: c :: rest) args =
      ('%' :: c :: (sprintfAux nc rest args).1, (sprintfAux nc rest args).2) := by
  cases args with
  | nil => rw [sprintfAux.eq_3, if_pos h1, if_neg h2, if_pos h3]
  | cons a args2 =>
    have h4 : ¬ (isRecognizedDirective c = true) := by
      rcases h with h | h
      · exact absurd h (by simp)
      · simp [h]
    rw [sprintfAux.eq_4, if_pos h1, if_neg h2, if_pos h3, if_neg h4]

theorem sprintfAux_rec (nc : Bool) (c1 c : Char) (rest : Str) (a : LVal) (args2 : List LVal)
    (h1 : (c1 == '%') = true) (h2 : ¬ ((c == '%') = true)) (h3 : isAsciiLetterChar c = true)
    (h4 : isRecognizedDirective c = true) :
    sprintfAux nc (c1 :: c :: rest) (a :: args2) =
      (directiveText nc c a ++ (sprintfAux nc rest args2).1, (sprintfAux nc rest args2).2 + 1) := by
  rw [sprintfAux.eq_4, if_pos h1, if_neg h2, if_pos h3, if_pos h4]

theorem sprintfAux_nonletter (nc : Bool) (c1 c : Char) (rest : Str) (args : List LVal)
    (h1 : (c1 == '%') = true) (h2 : ¬ ((c == '%') = true)) (h3 : ¬ (isAsciiLetterChar c = true)) :
    sprintfAux nc (c1 :: c :: rest) args =
      ('%' :: (sprintfAux nc (c :: rest) args).1, (sprintfAux nc (c :: rest) args).2) := by
  cases args with
  | nil => rw [sprintfAux.eq_3, if_pos h1, if_neg h2, if_neg h3]
  | cons a args2 => rw [sprintfAux.eq_4, if_pos h1, if_neg h2, if_neg h3]

theorem sprintfAux_plain (nc : Bool) (c1 c : Char) (rest : Str) (args : List LVal)
    (h1 : ¬ ((c1 == '%') = true)) :
    sprintfAux nc (c1 :: c :: rest) args =
      (c1 :: (sprintfAux nc (c :: rest) args).1, (sprintfAux nc (c :: rest) args).2) := by
  cases args with
  | nil => rw [sprintfAux.eq_3, if_neg h1]
  | cons a args2 => rw [sprintfAux.eq_4, if_neg h1]

/-- C2: rendering the single input `"[Hello].red"` with no extra kits gives
exactly `"Hello"` under suppressed colour; with colour on, the output is
exactly the 24-bit red foreground escape, the text `Hello`, and a trailing
reset — in particular it contains the red escape and `Hello` as substrings
and ends in the reset sequence. -/
theorem render_hello_red :
    LoggingsFormatKitController [LVal.str "[Hello].red".toList] [] true = "Hello".toList ∧
    LoggingsFormatKitController [LVal.str "[Hello].red".toList] [] false =
      "\x1b[38;2;255;0;0mHello\x1b[0m".toList ∧
    (∃ l r, LoggingsFormatKitController [LVal.str "[Hello].red".toList] [] false =
      l ++ "\x1b[38;2;255;0;0m".toList ++ r) ∧
    (∃ l r, LoggingsFormatKitController [LVal.str "[Hello].red".toList] [] false =
      l ++ "Hello".toList ++ r) ∧
    (∃ l, LoggingsFormatKitController [LVal.str "[Hello].red".toList] [] false =
      l ++ "\x1b[0m".toList) := by
  refine ⟨by decide, by decide, ⟨[], "Hello\x1b[0m".toList, by decide⟩,
    ⟨"\x1b[38;2;255;0;0m".toList, "\x1b[0m".toList, by decide⟩,
    ⟨"\x1b[38;2;255;0;0mHello".toList, by decide⟩⟩

/-- C3: a `%`-directive with no remaining argument, or whose character is a
letter outside the recognized set, stays verbatim in the output (the scan
continues after it) and the consumed count is unchanged; in particular
`sprintf("%s %d", ["One"])` renders `"One %d"` consuming exactly one
argument, and `sprintf("%z", ["One"])` renders `"%z"` consuming none. -/
theorem sprintf_verbatim (c : Char) (rest : Str) (args : List LVal) (nocolor : Bool)
    (hc : isAsciiLetterChar c = true)
    (h : args = [] ∨ isRecognizedDirective c = false) :
    sprintfAux nocolor ('%' :: c :: rest) args =
      ('%' :: c :: (sprintfAux nocolor rest args).1, (sprintfAux nocolor rest args).2) ∧
    sprintf "%s %d".toList [LVal.str "One".toList] false = ("One %d".toList, 1) ∧
    sprintf "%z".toList [LVal.str "One".toList] false = ("%z".toList, 0) := by
  refine ⟨?_, by decide, by decide⟩
  have hpc : ¬ ((c == '%') = true) := by
    by_cases hcc : c = '%'
    · subst hcc; exact absurd hc (by decide)
    · simp [hcc]
  exact sprintfAux_verbatim_branch nocolor '%' c rest args rfl hpc hc h

/-- Witness for C3 at the concrete input `sprintf("%z", ["One"])`. -/
theorem sprintf_verbatim_witness :
    sprintf "%z".toList [LVal.str "One".toList] false = ("%z".toList, 0) :=
  (sprintf_verbatim 'z' [] [LVal.str "One".toList] false (by decide)
    (Or.inr (by decide))).2.2

/-- C5 (amended): `%d` substitutes `String(Math.floor(Number(x)))`, i.e. the
decimal representation of the floor of `x` (rounding toward negative
infinity, which agrees with truncation toward zero only for `x ≥ -0`);
`sprintf("Int %d", [123.99])` is `"Int 123"`. -/
theorem sprintf_d_floor (q : ℚ) :
    sprintf "Int %d".toList [LVal.num q] false = ("Int ".toList ++ intStr q.floor, 1) ∧
    (sprintf "Int %d".toList [LVal.num (mkRat 12399 100)] false).1 = "Int 123".toList := by
  constructor
  · have h1 : sprintfAux false ['I', 'n', 't', ' ', '%', 'd'] [LVal.num q] =
        ('I' :: 'n' :: 't' :: ' ' :: (intStr q.floor ++ []), 1) := rfl
    show sprintfAux false ['I', 'n', 't', ' ', '%', 'd'] [LVal.num q] = _
    rw [h1, List.append_nil]
    rfl
  · decide

/-- C5 (counterexample to the original claim): at the negative argument
`-123.99` the code substitutes the floor `-124`, not the toward-zero
truncation `-123` the claim prescribes. -/
theorem sprintf_d_negative :
    (sprintf "Int %d".toList [LVal.num (mkRat (-12399) 100)] false).1 = "Int -124".toList ∧
    "Int -124".toList ≠ "Int -123".toList := by
  exact ⟨by decide, by decide⟩

/-- C10: for every format string, argument list and flag, the consumed count
of the internal sprintf overload is at most the number of arguments, and the
rendered text and count depend only on the first `consumed` arguments (the
scan with the argument list truncated to the consumed prefix produces the
same result) — so the controller's `inputs.slice(1 + consumed)` never drops
an argument that was not substituted. -/
theorem sprintf_consumed_sound (fmt : Str) (args : List LVal) (nocolor : Bool) :
    (sprintf fmt args nocolor).2 ≤ args.length ∧
    sprintf fmt (args.take (sprintf fmt args nocolor).2) nocolor = sprintf fmt args nocolor := by
  unfold sprintf
  induction fmt, args using sprintfAux.induct nocolor with
  | case1 args => exact ⟨Nat.zero_le _, rfl⟩
  | case2 c1 args => exact ⟨Nat.zero_le _, rfl⟩
  | case3 c1 c rest args h1 h2 ih =>
    obtain ⟨ih1, ih2⟩ := ih
    rw [sprintfAux_pp nocolor c1 c rest args h1 h2]
    dsimp only
    refine ⟨ih1, ?_⟩
    rw [sprintfAux_pp nocolor c1 c rest _ h1 h2, ih2]
  | case4 c1 c rest h1 h2 h3 ih =>
    obtain ⟨ih1, ih2⟩ := ih
    constructor
    · rw [sprintfAux_verbatim_branch nocolor c1 c rest [] h1 h2 h3 (Or.inl rfl)]
      exact ih1
    · rw [List.take_nil]
  | case5 c1 c rest h1 h2 h3 a args2 h4 ih =>
    obtain ⟨ih1, ih2⟩ := ih
    rw [sprintfAux_rec nocolor c1 c rest a args2 h1 h2 h3 h4]
    dsimp only
    constructor
    · simp only [List.length_cons]
      exact Nat.succ_le_succ ih1
    · rw [List.take_succ_cons, sprintfAux_rec nocolor c1 c rest a _ h1 h2 h3 h4, ih2]
  | case6 c1 c rest h1 h2 h3 a args2 h4 ih =>
    obtain ⟨ih1, ih2⟩ := ih
    rw [sprintfAux_verbatim_branch nocolor c1 c rest (a :: args2) h1 h2 h3 (Or.inr (by simpa using h4))]
    dsimp only
    refine ⟨ih1, ?_⟩
    rw [sprintfAux_verbatim_branch nocolor c1 c rest _ h1 h2 h3 (Or.inr (by simpa using h4)), ih2]
  | case7 c1 c rest args h1 h2 h3 ih =>
    obtain ⟨ih1, ih2⟩ := ih
    rw [sprintfAux_nonletter nocolor c1 c rest args h1 h2 h3]
    dsimp only
    refine ⟨ih1, ?_⟩
    rw [sprintfAux_nonletter nocolor c1 c rest _ h1 h2 h3, ih2]
  | case8 c1 c rest args h1 ih =>
    obtain ⟨ih1, ih2⟩ := ih
    rw [sprintfAux_plain nocolor c1 c rest args h1]
    dsimp only
    refine ⟨ih1, ?_⟩
    rw [sprintfAux_plain nocolor c1 c rest _ h1, ih2]

theorem findCloseDot_clean (d : Char) (inner post : Str)
    (h1 : d ∉ inner) (h2 : ∀ a ∈ inner, isJsDot a = true) :
    findCloseDot d (inner ++ d :: post) = some (inner, post) := by
  induction inner with
  | nil =>
    rw [List.nil_append, findCloseDot, if_pos (by simp)]
  | cons c cs ih =>
    have hc1 : ¬ ((c == d) = true) := by
      simp only [beq_iff_eq]
      intro hh
      exact h1 (by simp [hh])
    have hc2 : isJsDot c = true := h2 c (by simp)
    rw [List.cons_append, findCloseDot, if_neg hc1, if_pos hc2,
      ih (fun hh => h1 (by simp [hh])) (fun a ha => h2 a (by simp [ha]))]
    rfl

theorem findInline_pre (d : Char) (pre rest inner post : Str)
    (hpre : d ∉ pre) (hfc : findCloseDot d rest = some (inner, post)) :
    findInline d (pre ++ d :: rest) = some (pre, inner, post) := by
  induction pre with
  | nil =>
    rw [List.nil_append, findInline, if_pos (by simp), hfc]
  | cons c cs ih =>
    have hc1 : ¬ ((c == d) = true) := by
      simp only [beq_iff_eq]
      intro hh
      exact hpre (by simp [hh])
    rw [List.cons_append, findInline, if_neg hc1, ih (fun hh => hpre (by simp [hh]))]
    rfl

/-- C4 (counterexample to the original claim): one application of the bold
pass on an input with two disjoint `*…*` pairs strips only the first pair
under suppressed colour — the regex has no `g` flag, so `replace` rewrites a
single match; the second pair survives the sweep. -/
theorem inline_single_sweep_cex :
    LoggingsFormatParserInline '*' "bold".toList true "*a* *b*".toList = "a *b*".toList ∧
    LoggingsFormatParserInline '*' "bold".toList true "*a* *b*".toList ≠ "a b".toList := by
  exact ⟨by decide, by decide⟩

/-- C4 (amended): one application of an inline style pass resolves exactly
the first (leftmost) delimiter pair, matched non-greedily: with no delimiter
in the prefix or the span and no line terminator inside the span, the pair is
styled (or stripped under suppressed colour) and everything after the closing
delimiter — including any further pairs — is left untouched for later rounds
of the controller loop. -/
theorem inline_first_pair (nocolor : Bool) (pre inner post : Str)
    (hpre : '*' ∉ pre) (hin1 : '*' ∉ inner) (hin2 : ∀ a ∈ inner, isJsDot a = true) :
    LoggingsFormatParserInline '*' "bold".toList nocolor (pre ++ '*' :: (inner ++ '*' :: post)) =
      pre ++ (if nocolor then inner else colorpik "bold".toList inner) ++ post := by
  simp only [LoggingsFormatParserInline]
  rw [findInline_pre '*' pre (inner ++ '*' :: post) inner post hpre
    (findCloseDot_clean '*' inner post hin1 hin2)]

/-- Witness for C4's amended claim: prefix `"x "`, span `"a"`, and a second
pair inside the untouched suffix `" *b*"`. -/
theorem inline_first_pair_witness :
    LoggingsFormatParserInline '*' "bold".toList true
        ("x ".toList ++ '*' :: ("a".toList ++ '*' :: " *b*".toList)) =
      "x ".toList ++ (if true then "a".toList else colorpik "bold".toList "a".toList) ++ " *b*".toList :=
  inline_first_pair true "x ".toList "a".toList " *b*".toList (by decide) (by decide) (by decide)

theorem rat_floor_eq_int_floor (q : ℚ) : q.floor = ⌊q⌋ := by
  rw [Rat.floor_def', Rat.floor_def]

theorem jsRound_cast_zero_factor (a b : Nat) :
    jsRound ((a : ℚ) + ((b : ℚ) - (a : ℚ)) * 0) = (a : Int) := by
  unfold jsRound
  rw [mul_zero, add_zero, rat_floor_eq_int_floor]
  rw [show ((a : ℚ) + 1 / 2) = 1 / 2 + ((a : Int) : ℚ) by push_cast; ring]
  rw [Int.floor_add_int]
  norm_num

theorem interpolate_zero (cA cB : Nat) :
    interpolate cA cB 0 =
      rgb ((cA / 65536 % 256 : Nat) : Int) ((cA / 256 % 256 : Nat) : Int)
        ((cA % 256 : Nat) : Int) false := by
  unfold interpolate
  dsimp only
  rw [jsRound_cast_zero_factor, jsRound_cast_zero_factor, jsRound_cast_zero_factor]

theorem getD_zero_headD (l : List Nat) : l.getD 0 0 = l.headD 0 := by
  cases l <;> rfl

theorem splitCommaAux_ne_nil : ∀ (s acc : Str), splitCommaAux s acc ≠ [] := by
  intro s
  induction s with
  | nil => intro acc; simp [splitCommaAux]
  | cons c cs ih =>
    intro acc
    rw [splitCommaAux]
    by_cases h : (c == ',') = true
    · rw [if_pos h]; simp
    · rw [if_neg h]; exact ih _

theorem gradStops_length (arg : Str) : 2 ≤ (gradStops arg).length := by
  have hne : splitComma arg ≠ [] := splitCommaAux_ne_nil arg []
  have hpos : 0 < (splitComma arg).length := List.length_pos.mpr hne
  unfold gradStops
  dsimp only
  by_cases h : ((splitComma arg).length == 1) = true
  · rw [if_pos h]; simp
  · rw [if_neg h]
    simp only [List.length_map]
    have h2 : (splitComma arg).length ≠ 1 := by simpa using h
    omega

theorem gradLoop_first_scalar (colors : List Nat) (sl : Nat) (pre : List (Str × Bool))
    (c : Str) (rest : List (Str × Bool)) (hpre : ∀ u ∈ pre, u.2 = true) :
    gradLoop colors sl (pre ++ (c, false) :: rest) 0 =
      ((pre.map Prod.fst).flatten ++
        interpolate (colors.getD 0 0)
          (colors.getD (if 0 + 1 ≤ colors.length - 1 then 0 + 1 else colors.length - 1) 0) 0) ++
        c ++ gradLoop colors sl rest 1 := by
  induction pre with
  | nil =>
    rw [List.nil_append, gradLoop]
    have hidx : 0 / sl = 0 := Nat.zero_div sl
    have hfac : (((0 : Nat) : ℚ) - ((0 : Nat) : ℚ) * (sl : ℚ)) / (sl : ℚ) = 0 := by
      push_cast
      simp
    rw [hidx, hfac]
    simp
  | cons u pre ih =>
    obtain ⟨s, b⟩ := u
    have hb : b = true := hpre (s, b) (by simp)
    subst hb
    rw [List.cons_append, gradLoop, ih (fun v hv => hpre v (by simp [hv]))]
    simp [List.append_assoc]

/-- C6: in a gradient invocation the parsed colour-stop list always has at
least two stops (single stops are duplicated), and the first scalar display
unit — after any leading emoji units, which pass through unstyled — is
emitted immediately preceded by the escape sequence of exactly the first
stop's RGB channels (interpolation factor 0 reproduces stop 0 bit-exactly). -/
theorem gradient_first_stop (text w colorsArg : Str) (pre rest : List (Str × Bool)) (c : Str)
    (hpart : partitionUnits text = pre ++ (c, false) :: rest)
    (hpre : ∀ u ∈ pre, u.2 = true) :
    2 ≤ (gradStops colorsArg).length ∧
    ∃ suffix, GradientFunction false w text colorsArg =
      ((pre.map Prod.fst).flatten ++
        rgb (((gradStops colorsArg).headD 0 / 65536 % 256 : Nat) : Int)
          (((gradStops colorsArg).headD 0 / 256 % 256 : Nat) : Int)
          (((gradStops colorsArg).headD 0 % 256 : Nat) : Int) false) ++
        c ++ suffix := by
  refine ⟨gradStops_length colorsArg, ?_⟩
  have hnc : GradientFunction false w text colorsArg =
      gradLoop (gradStops colorsArg)
        ((((partitionUnits text).filter (fun u => !u.2)).length + ((gradStops colorsArg).length - 1) - 1) /
          ((gradStops colorsArg).length - 1))
        (partitionUnits text) 0 ++ ansiReset := by
    rw [GradientFunction, if_neg (by simp)]
  rw [hnc, hpart, gradLoop_first_scalar _ _ pre c rest hpre, interpolate_zero, getD_zero_headD]
  exact ⟨_, List.append_assoc _ _ _⟩

/-- Witness for C6 at the concrete gradient `(Hi)gd(red,blue)`: the first
unit `H` is preceded by the exact red escape. -/
theorem gradient_first_stop_witness :
    2 ≤ (gradStops "red,blue".toList).length ∧
    ∃ suffix, GradientFunction false [] "Hi".toList "red,blue".toList =
      ((([] : List (Str × Bool)).map Prod.fst).flatten ++
        rgb (((gradStops "red,blue".toList).headD 0 / 65536 % 256 : Nat) : Int)
          (((gradStops "red,blue".toList).headD 0 / 256 % 256 : Nat) : Int)
          (((gradStops "red,blue".toList).headD 0 % 256 : Nat) : Int) false) ++
        ['H'] ++ suffix :=
  gradient_first_stop "Hi".toList [] "red,blue".toList [] [(['i'], false)] ['H']
    (by decide) (by decide)

end Lggs
